import Mathlib

/-!
Shallow embedding of the GPIO façade (src/src/gpio.c, src/inc/gpio.h) and its
HAL interface (src/inc/hal.h).  The C module exposes four operations on an
opaque pin handle: gpioCreate, gpioSetOutput, gpioSetState, gpioGetState.
Handles are backed either by a static pool of GPIO_MAX_INSTANCES slots
(default build) or by malloc (USE_DYNAMIC_MEM build).  Every electrical
operation is delegated to one of three HAL primitives keyed by (port, bit):
hal_gpio_set_direction, hal_gpio_set_output, hal_gpio_get_input.

The embedding models the static pool as a list of gpio_s records indexed by
slot number (a handle is the index of its slot, the NULL handle is `none`),
and instruments each operation with the list of HAL primitive invocations it
performs, in order.  The HAL itself (src/src/hal.c) is an unimplemented stub,
so hal_gpio_get_input is modelled as an oracle parameter.  The dynamic build
is modelled with an explicit heap (list of cells) and a malloc oracle.
-/

/-- One recorded invocation of a HAL primitive (src/inc/hal.h).  Arguments are
the uint8_t port, the uint8_t bit and the boolean, forwarded verbatim. -/
inductive HalEvent where
  | hal_gpio_set_direction (port bit : Nat) (output : Bool)
  | hal_gpio_set_output (port bit : Nat) (active : Bool)
  | hal_gpio_get_input (port bit : Nat)
deriving DecidableEq

/-- struct gpio_s in the default (pool) build: port, bit, cached direction
`output`, and the `used` reservation flag (gpio.c, private data types). -/
structure gpio_s where
  port : Nat
  bit : Nat
  output : Bool
  used : Bool
deriving DecidableEq

/-- The all-zero instance: contents of every pool slot at program start
(`static struct gpio_s instances[GPIO_MAX_INSTANCES] = {0}`). -/
def gpioZero : gpio_s := ⟨0, 0, false, false⟩

/-- Default pool capacity (`#define GPIO_MAX_INSTANCES 10`). -/
def GPIO_MAX_INSTANCES : Nat := 10

/-- The static instance pool, as a list of slots indexed by position. -/
abbrev Pool := List gpio_s

/-- The pool at program start: n zero-initialized slots. -/
def initPool (n : Nat) : Pool := List.replicate n gpioZero

/-- Read slot h of the pool (out-of-range reads yield the zero instance;
they never occur for handles produced by gpioCreate). -/
def slotAt (insts : Pool) (h : Nat) : gpio_s := insts.getD h gpioZero

/-- Apply f to the element at index n of a list, leaving other positions
unchanged (embedding of a store through an element pointer). -/
def listUpdateAt {α : Type} : Nat → (α → α) → List α → List α
  | _, _, [] => []
  | 0, f, g :: rest => f g :: rest
  | Nat.succ k, f, g :: rest => g :: listUpdateAt k f rest

/-- allocateInstance (gpio.c): scan the pool in ascending index order; the
first slot whose used flag is false is marked used and returned; if every
slot is used the result is NULL (`none`).  Returns the claimed index and the
updated pool. -/
def allocateInstance : Pool → Option Nat × Pool
  | [] => (none, [])
  | g :: rest =>
      if !g.used then
        (some 0, { g with used := true } :: rest)
      else
        let r := allocateInstance rest
        (r.1.map Nat.succ, g :: r.2)

/-- gpioCreate (gpio.c, pool build): obtain a slot from allocateInstance; on
success store port and bit and set the cached direction to input (false). -/
def gpioCreate (port bit : Nat) (insts : Pool) : Option Nat × Pool :=
  match allocateInstance insts with
  | (none, insts2) => (none, insts2)
  | (some self, insts2) =>
      (some self,
       listUpdateAt self
         (fun g => { g with port := port, bit := bit, output := false }) insts2)

/-- gpioSetOutput (gpio.c): unconditionally store the new direction in the
handle, then call hal_gpio_set_direction(self->port, self->bit, output). -/
def gpioSetOutput (self : Nat) (output : Bool) (insts : Pool) :
    Pool × List HalEvent :=
  let insts2 := listUpdateAt self (fun g => { g with output := output }) insts
  (insts2,
   [HalEvent.hal_gpio_set_direction (slotAt insts2 self).port
      (slotAt insts2 self).bit output])

/-- gpioSetState (gpio.c): if the cached direction is output, call
hal_gpio_set_output(self->port, self->bit, state); otherwise do nothing. -/
def gpioSetState (self : Nat) (state : Bool) (insts : Pool) :
    Pool × List HalEvent :=
  if (slotAt insts self).output then
    (insts,
     [HalEvent.hal_gpio_set_output (slotAt insts self).port
        (slotAt insts self).bit state])
  else
    (insts, [])

/-- gpioGetState (gpio.c): unconditionally call
hal_gpio_get_input(self->port, self->bit) and return its result.  The HAL
back-end is a stub, so its answer is the oracle hal_input. -/
def gpioGetState (self : Nat) (hal_input : Nat → Nat → Bool) (insts : Pool) :
    Bool × Pool × List HalEvent :=
  (hal_input (slotAt insts self).port (slotAt insts self).bit, insts,
   [HalEvent.hal_gpio_get_input (slotAt insts self).port
      (slotAt insts self).bit])

/-- A client call into the façade.  Handle arguments are slot indices
previously returned by create. -/
inductive Cmd where
  | create (port bit : Nat)
  | setOutput (self : Nat) (output : Bool)
  | setState (self : Nat) (state : Bool)
  | getState (self : Nat)
deriving DecidableEq

/-- Observable system state: the pool, the HAL invocations recorded so far in
order, and the values returned by the create calls so far in order. -/
structure SysState where
  insts : Pool
  events : List HalEvent
  createResults : List (Option Nat)
deriving DecidableEq

/-- State at program start with a pool of n slots. -/
def initState (n : Nat) : SysState := ⟨initPool n, [], []⟩

/-- One façade call, threaded through the system state. -/
def step (hal_input : Nat → Nat → Bool) (s : SysState) : Cmd → SysState
  | Cmd.create p b =>
      let r := gpioCreate p b s.insts
      { s with insts := r.2, createResults := s.createResults ++ [r.1] }
  | Cmd.setOutput h v =>
      let r := gpioSetOutput h v s.insts
      { s with insts := r.1, events := s.events ++ r.2 }
  | Cmd.setState h v =>
      let r := gpioSetState h v s.insts
      { s with insts := r.1, events := s.events ++ r.2 }
  | Cmd.getState h =>
      let r := gpioGetState h hal_input s.insts
      { s with insts := r.2.1, events := s.events ++ r.2.2 }

/-- Run a sequence of façade calls. -/
def execCmds (hal_input : Nat → Nat → Bool) (s : SysState) :
    List Cmd → SysState
  | [] => s
  | c :: rest => execCmds hal_input (step hal_input s c) rest

/-- The pool after a sequence of façade calls (the pool component of
execCmds: gpioSetState and gpioGetState never modify the pool). -/
def runPool (insts : Pool) : List Cmd → Pool
  | [] => insts
  | Cmd.create p b :: rest => runPool (gpioCreate p b insts).2 rest
  | Cmd.setOutput h v :: rest => runPool (gpioSetOutput h v insts).1 rest
  | Cmd.setState _ _ :: rest => runPool insts rest
  | Cmd.getState _ :: rest => runPool insts rest

/-- h is a live handle of the pool: a slot index whose reservation flag is
set (exactly the indices returned by successful creates). -/
def isUsed (insts : Pool) (h : Nat) : Bool :=
  decide (h < insts.length) && (slotAt insts h).used

/-- The call sequence is well formed from the given pool: every handle passed
to setOutput, setState or getState was returned by an earlier create (the C
contract: handles come from gpioCreate and NULL is never passed on). -/
def validRun (insts : Pool) : List Cmd → Bool
  | [] => true
  | Cmd.create p b :: rest => validRun (gpioCreate p b insts).2 rest
  | Cmd.setOutput h v :: rest =>
      isUsed insts h && validRun (gpioSetOutput h v insts).1 rest
  | Cmd.setState h _ :: rest => isUsed insts h && validRun insts rest
  | Cmd.getState h :: rest => isUsed insts h && validRun insts rest

/-- The boolean supplied by the most recent `setOutput` on handle h in the
call sequence, if any (later calls take precedence). -/
def lastSetOutputCmd (h : Nat) : List Cmd → Option Bool
  | [] => none
  | Cmd.setOutput k v :: rest =>
      match lastSetOutputCmd h rest with
      | some w => some w
      | none => if k = h then some v else none
  | Cmd.create _ _ :: rest => lastSetOutputCmd h rest
  | Cmd.setState _ _ :: rest => lastSetOutputCmd h rest
  | Cmd.getState _ :: rest => lastSetOutputCmd h rest

/-- The create commands for a list of (port, bit) pairs. -/
def createsOf (ps : List (Nat × Nat)) : List Cmd :=
  ps.map (fun pb => Cmd.create pb.1 pb.2)

/-- The used flags of a pool form an initial run of length c: slots below c
are reserved, slots from c on are free.  This is how every pool reachable by
create calls looks (slots are claimed in ascending order, never released). -/
def prefUsed : Pool → Nat → Bool
  | [], c => decide (c = 0)
  | g :: rest, 0 => !g.used && prefUsed rest 0
  | g :: rest, Nat.succ c => g.used && prefUsed rest c

/-- The results of m consecutive create calls on a pool of len slots of
which the first c are already reserved: slots c, c+1, ... while capacity
remains, NULL afterwards. -/
def expectedResults (c len : Nat) : Nat → List (Option Nat)
  | 0 => []
  | Nat.succ m => (if c < len then some c else none) :: expectedResults (c + 1) len m

/- ===================== dynamic build (USE_DYNAMIC_MEM) ===================== -/

/-- struct gpio_s in the USE_DYNAMIC_MEM build: no `used` flag. -/
structure gpio_dyn_s where
  port : Nat
  bit : Nat
  output : Bool
deriving DecidableEq

/-- The heap of the dynamic build: one cell per malloc'd handle; a handle is
the index of its cell. -/
abbrev Heap := List gpio_dyn_s

/-- Read cell h of the heap. -/
def slotAtDyn (heap : Heap) (h : Nat) : gpio_dyn_s := heap.getD h ⟨0, 0, false⟩

/-- malloc(sizeof(struct gpio_s)) as called by gpioCreate in the dynamic
build: the oracle `ok` says whether the allocation is granted, and `junk` is
the indeterminate content of the fresh cell (C leaves malloc'd memory
uninitialized). -/
def mallocGpio (ok : Bool) (junk : gpio_dyn_s) (heap : Heap) :
    Option Nat × Heap :=
  if ok then (some heap.length, heap ++ [junk]) else (none, heap)

/-- gpioCreate (gpio.c, dynamic build): malloc a cell; on success store port
and bit and set the cached direction to input (false). -/
def gpioCreateDyn (ok : Bool) (junk : gpio_dyn_s) (port bit : Nat)
    (heap : Heap) : Option Nat × Heap :=
  match mallocGpio ok junk heap with
  | (none, heap2) => (none, heap2)
  | (some self, heap2) =>
      (some self,
       listUpdateAt self
         (fun g => { g with port := port, bit := bit, output := false }) heap2)

/-- gpioSetOutput in the dynamic build (same body as the pool build). -/
def gpioSetOutputDyn (self : Nat) (output : Bool) (heap : Heap) :
    Heap × List HalEvent :=
  let heap2 := listUpdateAt self (fun g => { g with output := output }) heap
  (heap2,
   [HalEvent.hal_gpio_set_direction (slotAtDyn heap2 self).port
      (slotAtDyn heap2 self).bit output])

/-- gpioSetState in the dynamic build (same body as the pool build). -/
def gpioSetStateDyn (self : Nat) (state : Bool) (heap : Heap) :
    Heap × List HalEvent :=
  if (slotAtDyn heap self).output then
    (heap,
     [HalEvent.hal_gpio_set_output (slotAtDyn heap self).port
        (slotAtDyn heap self).bit state])
  else
    (heap, [])

/-- gpioGetState in the dynamic build (same body as the pool build). -/
def gpioGetStateDyn (self : Nat) (hal_input : Nat → Nat → Bool)
    (heap : Heap) : Bool × Heap × List HalEvent :=
  (hal_input (slotAtDyn heap self).port (slotAtDyn heap self).bit, heap,
   [HalEvent.hal_gpio_get_input (slotAtDyn heap self).port
      (slotAtDyn heap self).bit])

/-- A client call in the dynamic build; create carries the malloc oracle for
that call (granted or refused, and the indeterminate fresh-cell content). -/
inductive DynCmd where
  | create (ok : Bool) (junk : gpio_dyn_s) (port bit : Nat)
  | setOutput (self : Nat) (output : Bool)
  | setState (self : Nat) (state : Bool)
  | getState (self : Nat)
deriving DecidableEq

/-- Observable system state of the dynamic build. -/
structure DynState where
  heap : Heap
  events : List HalEvent
  createResults : List (Option Nat)
deriving DecidableEq

/-- Dynamic-build state at program start: empty heap, nothing recorded. -/
def initDynState : DynState := ⟨[], [], []⟩

/-- One façade call in the dynamic build. -/
def dynStep (hal_input : Nat → Nat → Bool) (s : DynState) :
    DynCmd → DynState
  | DynCmd.create ok junk p b =>
      let r := gpioCreateDyn ok junk p b s.heap
      { s with heap := r.2, createResults := s.createResults ++ [r.1] }
  | DynCmd.setOutput h v =>
      let r := gpioSetOutputDyn h v s.heap
      { s with heap := r.1, events := s.events ++ r.2 }
  | DynCmd.setState h v =>
      let r := gpioSetStateDyn h v s.heap
      { s with heap := r.1, events := s.events ++ r.2 }
  | DynCmd.getState h =>
      let r := gpioGetStateDyn h hal_input s.heap
      { s with heap := r.2.1, events := s.events ++ r.2.2 }

/-- Run a sequence of façade calls in the dynamic build. -/
def execDynCmds (hal_input : Nat → Nat → Bool) (s : DynState) :
    List DynCmd → DynState
  | [] => s
  | c :: rest => execDynCmds hal_input (dynStep hal_input s c) rest

/-- The dynamic-build create commands for a list of malloc-oracle/argument
tuples. -/
def dynCreatesOf (qs : List (Bool × gpio_dyn_s × Nat × Nat)) : List DynCmd :=
  qs.map (fun q => DynCmd.create q.1 q.2.1 q.2.2.1 q.2.2.2)

/- ============== definedness wrappers for the handle argument ============== -/

/-- gpioSetOutput with the handle as the caller passes it: a possibly NULL
pointer.  Dereferencing NULL or a pointer to no pool slot is undefined in C,
modelled as `none`; on a well-formed handle the call is the total function
gpioSetOutput. -/
def gpioSetOutputChecked (self : Option Nat) (output : Bool) (insts : Pool) :
    Option (Pool × List HalEvent) :=
  match self with
  | none => none
  | some h => if h < insts.length then some (gpioSetOutput h output insts) else none

/-- gpioSetState with a possibly NULL handle (see gpioSetOutputChecked). -/
def gpioSetStateChecked (self : Option Nat) (state : Bool) (insts : Pool) :
    Option (Pool × List HalEvent) :=
  match self with
  | none => none
  | some h => if h < insts.length then some (gpioSetState h state insts) else none

/-- gpioGetState with a possibly NULL handle (see gpioSetOutputChecked). -/
def gpioGetStateChecked (self : Option Nat) (hal_input : Nat → Nat → Bool)
    (insts : Pool) : Option (Bool × Pool × List HalEvent) :=
  match self with
  | none => none
  | some h => if h < insts.length then some (gpioGetState h hal_input insts) else none

/- ========================= basic list lemmas ========================= -/

theorem listUpdateAt_length {α : Type} (n : Nat) (f : α → α) (l : List α) :
    (listUpdateAt n f l).length = l.length := by
  induction l generalizing n with
  | nil => cases n <;> rfl
  | cons g rest ih =>
    cases n with
    | zero => rfl
    | succ k => simpa [listUpdateAt] using ih k

theorem getD_listUpdateAt_ne {α : Type} (d : α) (n k : Nat) (f : α → α)
    (l : List α) (h : k ≠ n) :
    (listUpdateAt n f l).getD k d = l.getD k d := by
  induction l generalizing n k with
  | nil => cases n <;> rfl
  | cons g rest ih =>
    cases n with
    | zero =>
      cases k with
      | zero => exact absurd rfl h
      | succ k2 => rfl
    | succ n2 =>
      cases k with
      | zero => rfl
      | succ k2 =>
        have h2 : k2 ≠ n2 := fun hh => h (by rw [hh])
        simpa [listUpdateAt, List.getD_cons_succ] using ih n2 k2 h2

theorem getD_listUpdateAt_self {α : Type} (d : α) (n : Nat) (f : α → α)
    (l : List α) (h : n < l.length) :
    (listUpdateAt n f l).getD n d = f (l.getD n d) := by
  induction l generalizing n with
  | nil => simp at h
  | cons g rest ih =>
    cases n with
    | zero => rfl
    | succ n2 =>
      have h2 : n2 < rest.length := by simpa using h
      simpa [listUpdateAt, List.getD_cons_succ] using ih n2 h2

theorem listUpdateAt_listUpdateAt {α : Type} (n : Nat) (f g : α → α)
    (l : List α) :
    listUpdateAt n f (listUpdateAt n g l) = listUpdateAt n (fun x => f (g x)) l := by
  induction l generalizing n with
  | nil => cases n <;> rfl
  | cons a rest ih =>
    cases n with
    | zero => rfl
    | succ k => simpa [listUpdateAt] using ih k

theorem getD_replicate_lt {α : Type} (d a : α) (n k : Nat) (h : k < n) :
    (List.replicate n a).getD k d = a := by
  induction n generalizing k with
  | zero => simp at h
  | succ m ih =>
    cases k with
    | zero => rfl
    | succ k2 => simpa [List.replicate, List.getD_cons_succ] using ih k2 (by omega)

/- ===================== allocateInstance lemmas ===================== -/

theorem allocateInstance_cons_used (g : gpio_s) (rest : Pool)
    (hg : g.used = true) :
    allocateInstance (g :: rest) =
      ((allocateInstance rest).1.map Nat.succ, g :: (allocateInstance rest).2) := by
  simp [allocateInstance, hg]

theorem allocateInstance_cons_free (g : gpio_s) (rest : Pool)
    (hg : g.used = false) :
    allocateInstance (g :: rest) = (some 0, { g with used := true } :: rest) := by
  simp [allocateInstance, hg]

theorem allocateInstance_snd_of_none (insts : Pool)
    (h : (allocateInstance insts).1 = none) :
    (allocateInstance insts).2 = insts := by
  induction insts with
  | nil => rfl
  | cons g rest ih =>
    by_cases hg : g.used
    · rw [allocateInstance_cons_used g rest hg] at h ⊢
      have hrest : (allocateInstance rest).1 = none := by
        cases hr : (allocateInstance rest).1 with
        | none => rfl
        | some j => simp [hr] at h
      simp [ih hrest]
    · have hg2 : g.used = false := by simpa using hg
      rw [allocateInstance_cons_free g rest hg2] at h
      simp at h

theorem allocateInstance_some (insts : Pool) (j : Nat)
    (h : (allocateInstance insts).1 = some j) :
    j < insts.length ∧ (slotAt insts j).used = false ∧
      (allocateInstance insts).2 =
        listUpdateAt j (fun g => { g with used := true }) insts := by
  induction insts generalizing j with
  | nil => simp [allocateInstance] at h
  | cons g rest ih =>
    by_cases hg : g.used
    · rw [allocateInstance_cons_used g rest hg] at h ⊢
      cases hr : (allocateInstance rest).1 with
      | none => simp [hr] at h
      | some j2 =>
        have hj : j = j2 + 1 := by
          simp [hr] at h
          omega
        subst hj
        obtain ⟨h1, h2, h3⟩ := ih j2 hr
        refine ⟨by simpa using h1, ?_, ?_⟩
        · simpa [slotAt, List.getD_cons_succ] using h2
        · simp [listUpdateAt, h3]
    · have hg2 : g.used = false := by simpa using hg
      rw [allocateInstance_cons_free g rest hg2] at h ⊢
      have hj : j = 0 := by simpa using h.symm
      subst hj
      exact ⟨by simp, by simpa [slotAt] using hg2, rfl⟩

theorem allocateInstance_exhausted (insts : Pool)
    (h : ∀ k, k < insts.length → (slotAt insts k).used = true) :
    allocateInstance insts = (none, insts) := by
  induction insts with
  | nil => rfl
  | cons g rest ih =>
    have hg : g.used = true := h 0 (by simp)
    have hrest : ∀ k, k < rest.length → (slotAt rest k).used = true := by
      intro k hk
      have := h (k + 1) (by simpa using Nat.succ_lt_succ hk)
      simpa [slotAt, List.getD_cons_succ] using this
    simp [allocateInstance, hg, ih hrest]

/- ======================== gpioCreate lemmas ======================== -/

theorem gpioCreate_eq (p b : Nat) (insts : Pool) :
    gpioCreate p b insts =
      match (allocateInstance insts).1 with
      | none => (none, (allocateInstance insts).2)
      | some self =>
          (some self,
           listUpdateAt self
             (fun g => { g with port := p, bit := b, output := false })
             (allocateInstance insts).2) := by
  unfold gpioCreate
  rcases allocateInstance insts with ⟨o, ip⟩
  cases o <;> rfl

theorem gpioCreate_none (p b : Nat) (insts insts2 : Pool)
    (h : gpioCreate p b insts = (none, insts2)) :
    insts2 = insts ∧ (allocateInstance insts).1 = none := by
  rw [gpioCreate_eq] at h
  cases hA : (allocateInstance insts).1 with
  | none =>
    rw [hA] at h
    simp at h
    refine ⟨?_, rfl⟩
    rw [← h]
    exact allocateInstance_snd_of_none insts hA
  | some j2 =>
    rw [hA] at h
    simp at h

theorem gpioCreate_some (p b : Nat) (insts : Pool) (j : Nat) (insts2 : Pool)
    (h : gpioCreate p b insts = (some j, insts2)) :
    j < insts.length ∧ (slotAt insts j).used = false ∧
      insts2 = listUpdateAt j (fun _ => (⟨p, b, false, true⟩ : gpio_s)) insts := by
  rw [gpioCreate_eq] at h
  cases hA : (allocateInstance insts).1 with
  | none =>
    rw [hA] at h
    simp at h
  | some j2 =>
    rw [hA] at h
    simp at h
    obtain ⟨hj, hlist⟩ := h
    subst hj
    obtain ⟨h1, h2, h3⟩ := allocateInstance_some insts j2 hA
    refine ⟨h1, h2, ?_⟩
    rw [← hlist, h3, listUpdateAt_listUpdateAt]

/- ===================== single-operation pool lemmas ===================== -/

theorem gpioSetState_pool (h : Nat) (v : Bool) (insts : Pool) :
    (gpioSetState h v insts).1 = insts := by
  unfold gpioSetState
  split <;> rfl

theorem gpioGetState_pool (h : Nat) (hal_input : Nat → Nat → Bool)
    (insts : Pool) : (gpioGetState h hal_input insts).2.1 = insts := rfl

theorem execCmds_insts (hal_input : Nat → Nat → Bool) (s : SysState)
    (t : List Cmd) : (execCmds hal_input s t).insts = runPool s.insts t := by
  induction t generalizing s with
  | nil => rfl
  | cons c rest ih =>
    cases c with
    | create p b => simpa [execCmds, step, runPool] using ih _
    | setOutput h v => simpa [execCmds, step, runPool] using ih _
    | setState h v =>
      have := ih (step hal_input s (Cmd.setState h v))
      simpa [execCmds, step, runPool, gpioSetState_pool] using this
    | getState h => simpa [execCmds, step, runPool] using ih _

/- ========================= prefUsed lemmas ========================= -/

theorem prefUsed_initPool (n : Nat) : prefUsed (initPool n) 0 = true := by
  induction n with
  | zero => rfl
  | succ m ih => simpa [initPool, List.replicate, prefUsed, gpioZero] using ih

theorem allocateInstance_prefUsed (insts : Pool) (c : Nat)
    (h : prefUsed insts c = true) :
    allocateInstance insts =
      (if c < insts.length then some c else none,
       if c < insts.length then
         listUpdateAt c (fun g => { g with used := true }) insts
       else insts) := by
  induction insts generalizing c with
  | nil =>
    have hc : c = 0 := by simpa [prefUsed] using h
    subst hc
    simp [allocateInstance]
  | cons g rest ih =>
    cases c with
    | zero =>
      have hg : g.used = false := by
        have h2 := h
        simp [prefUsed] at h2
        exact h2.1
      rw [allocateInstance_cons_free g rest hg]
      simp [listUpdateAt]
    | succ c2 =>
      have h2 : g.used = true ∧ prefUsed rest c2 = true := by
        simpa [prefUsed] using h
      rw [allocateInstance_cons_used g rest h2.1, ih c2 h2.2]
      by_cases hlt : c2 < rest.length
      · have hlt2 : c2 + 1 < (g :: rest).length := by simp; omega
        simp [hlt, hlt2, listUpdateAt]
      · have hlt2 : ¬ c2 + 1 < (g :: rest).length := by simp; omega
        simp [hlt, hlt2]

theorem prefUsed_update_succ (insts : Pool) (c : Nat) (f : gpio_s → gpio_s)
    (h : prefUsed insts c = true) (hc : c < insts.length)
    (hf : ∀ g, (f g).used = true) :
    prefUsed (listUpdateAt c f insts) (c + 1) = true := by
  induction insts generalizing c with
  | nil => simp at hc
  | cons g rest ih =>
    cases c with
    | zero =>
      have h2 : g.used = false ∧ prefUsed rest 0 = true := by
        simpa [prefUsed] using h
      simp [listUpdateAt, prefUsed, hf, h2.2]
    | succ c2 =>
      have h2 : g.used = true ∧ prefUsed rest c2 = true := by
        simpa [prefUsed] using h
      have hc2 : c2 < rest.length := by simp at hc; omega
      simp [listUpdateAt, prefUsed, h2.1, ih c2 h2.2 hc2]

theorem gpioCreate_prefUsed_lt (p b : Nat) (insts : Pool) (c : Nat)
    (h : prefUsed insts c = true) (hlt : c < insts.length) :
    gpioCreate p b insts =
      (some c, listUpdateAt c (fun _ => (⟨p, b, false, true⟩ : gpio_s)) insts) := by
  rw [gpioCreate_eq, allocateInstance_prefUsed insts c h]
  simp [hlt, listUpdateAt_listUpdateAt]

theorem gpioCreate_prefUsed_ge (p b : Nat) (insts : Pool) (c : Nat)
    (h : prefUsed insts c = true) (hge : ¬ c < insts.length) :
    gpioCreate p b insts = (none, insts) := by
  rw [gpioCreate_eq, allocateInstance_prefUsed insts c h]
  simp [hge]

/- ============== characterization of a run of create calls ============== -/

theorem expectedResults_ge (c len m : Nat) (h : ¬ c < len) :
    expectedResults c len m = List.replicate m none := by
  induction m generalizing c with
  | zero => rfl
  | succ m2 ih =>
    simp [expectedResults, h, List.replicate, ih (c + 1) (by omega)]

theorem execCmds_creates_results (hal_input : Nat → Nat → Bool)
    (ps : List (Nat × Nat)) (s : SysState) (c : Nat)
    (h : prefUsed s.insts c = true) :
    (execCmds hal_input s (createsOf ps)).createResults =
      s.createResults ++ expectedResults c s.insts.length ps.length := by
  induction ps generalizing s c with
  | nil => simp [createsOf, execCmds, expectedResults]
  | cons pb rest ih =>
    by_cases hlt : c < s.insts.length
    · have hcr := gpioCreate_prefUsed_lt pb.1 pb.2 s.insts c h hlt
      have hstep : step hal_input s (Cmd.create pb.1 pb.2) =
          { s with
            insts := listUpdateAt c (fun _ => (⟨pb.1, pb.2, false, true⟩ : gpio_s)) s.insts,
            createResults := s.createResults ++ [some c] } := by
        simp [step, hcr]
      have hpref : prefUsed (listUpdateAt c
          (fun _ => (⟨pb.1, pb.2, false, true⟩ : gpio_s)) s.insts) (c + 1) = true :=
        prefUsed_update_succ s.insts c _ h hlt (fun _ => rfl)
      have := ih (step hal_input s (Cmd.create pb.1 pb.2)) (c + 1)
        (by rw [hstep]; exact hpref)
      rw [show createsOf (pb :: rest) =
            Cmd.create pb.1 pb.2 :: createsOf rest from rfl]
      rw [execCmds, this, hstep]
      simp [expectedResults, hlt, listUpdateAt_length]
    · have hcr := gpioCreate_prefUsed_ge pb.1 pb.2 s.insts c h hlt
      have hstep : step hal_input s (Cmd.create pb.1 pb.2) =
          { s with createResults := s.createResults ++ [none] } := by
        simp [step, hcr]
      have := ih (step hal_input s (Cmd.create pb.1 pb.2)) c
        (by rw [hstep]; exact h)
      rw [show createsOf (pb :: rest) =
            Cmd.create pb.1 pb.2 :: createsOf rest from rfl]
      rw [execCmds, this, hstep]
      simp [expectedResults, hlt,
            expectedResults_ge c s.insts.length rest.length hlt,
            expectedResults_ge (c + 1) s.insts.length rest.length (by omega)]

theorem expectedResults_getD (m c len i : Nat) (h : i < m) :
    (expectedResults c len m).getD i none =
      if c + i < len then some (c + i) else none := by
  induction m generalizing c i with
  | zero => omega
  | succ m2 ih =>
    cases i with
    | zero => simp [expectedResults]
    | succ i2 =>
      have h2 : i2 < m2 := by omega
      have := ih (c + 1) i2 h2
      have harith : c + 1 + i2 = c + (i2 + 1) := by omega
      rw [harith] at this
      simpa [expectedResults, List.getD_cons_succ] using this

/- ================= cached direction along a call sequence ================= -/

theorem allocateInstance_snd_length (insts : Pool) :
    ((allocateInstance insts).2).length = insts.length := by
  induction insts with
  | nil => rfl
  | cons g rest ih =>
    by_cases hg : g.used
    · rw [allocateInstance_cons_used g rest hg]
      simp [ih]
    · have hg2 : g.used = false := by simpa using hg
      rw [allocateInstance_cons_free g rest hg2]
      simp

theorem gpioCreate_snd_length (p b : Nat) (insts : Pool) :
    ((gpioCreate p b insts).2).length = insts.length := by
  rw [gpioCreate_eq]
  cases hA : (allocateInstance insts).1 with
  | none => simpa using allocateInstance_snd_length insts
  | some j => simpa [listUpdateAt_length] using allocateInstance_snd_length insts

theorem isUsed_congr (insts insts2 : Pool) (h : Nat)
    (hlen : insts2.length = insts.length)
    (hslot : slotAt insts2 h = slotAt insts h) :
    isUsed insts2 h = isUsed insts h := by
  simp [isUsed, hlen, hslot]

theorem gpioCreate_preserves_used (p b : Nat) (insts : Pool) (h : Nat)
    (hu : isUsed insts h = true) :
    slotAt (gpioCreate p b insts).2 h = slotAt insts h ∧
      isUsed (gpioCreate p b insts).2 h = true := by
  rcases hc : gpioCreate p b insts with ⟨r, insts2⟩
  cases r with
  | none =>
    obtain ⟨he, _⟩ := gpioCreate_none p b insts insts2 hc
    simp [hc, he, hu]
  | some j =>
    obtain ⟨hlt, hfree, he⟩ := gpioCreate_some p b insts j insts2 hc
    have hused : (slotAt insts h).used = true := by
      simp [isUsed] at hu
      exact hu.2
    have hne : h ≠ j := by
      intro hh
      rw [hh] at hused
      rw [hused] at hfree
      exact absurd hfree (by simp)
    have hslot : slotAt insts2 h = slotAt insts h := by
      rw [he]
      exact getD_listUpdateAt_ne gpioZero j h _ insts hne
    have hlen : insts2.length = insts.length := by
      have := gpioCreate_snd_length p b insts
      rw [hc] at this
      exact this
    constructor
    · simp [hc, hslot]
    · simp [hc]
      rw [isUsed_congr insts insts2 h hlen hslot]
      exact hu

theorem gpioSetOutput_slot_ne (h : Nat) (v : Bool) (k : Nat) (insts : Pool)
    (hne : k ≠ h) : slotAt (gpioSetOutput h v insts).1 k = slotAt insts k :=
  getD_listUpdateAt_ne gpioZero h k _ insts hne

theorem gpioSetOutput_slot_self (h : Nat) (v : Bool) (insts : Pool)
    (hlt : h < insts.length) :
    slotAt (gpioSetOutput h v insts).1 h = { slotAt insts h with output := v } :=
  getD_listUpdateAt_self gpioZero h _ insts hlt

theorem gpioSetOutput_fst_length (h : Nat) (v : Bool) (insts : Pool) :
    ((gpioSetOutput h v insts).1).length = insts.length :=
  listUpdateAt_length h _ insts

theorem runPool_output_of_used (t : List Cmd) (insts : Pool) (h : Nat)
    (hv : validRun insts t = true) (hu : isUsed insts h = true) :
    (slotAt (runPool insts t) h).output =
      (lastSetOutputCmd h t).getD ((slotAt insts h).output) ∧
      isUsed (runPool insts t) h = true := by
  induction t generalizing insts with
  | nil => exact ⟨rfl, hu⟩
  | cons c rest ih =>
    cases c with
    | create p b =>
      have hv2 : validRun (gpioCreate p b insts).2 rest = true := hv
      obtain ⟨hslot, hu2⟩ := gpioCreate_preserves_used p b insts h hu
      obtain ⟨h1, h2⟩ := ih (gpioCreate p b insts).2 hv2 hu2
      refine ⟨?_, h2⟩
      rw [show runPool insts (Cmd.create p b :: rest) =
            runPool (gpioCreate p b insts).2 rest from rfl]
      rw [h1, hslot]
      rfl
    | setOutput k v =>
      have hv2 : isUsed insts k = true ∧
          validRun (gpioSetOutput k v insts).1 rest = true := by
        simpa [validRun] using hv
      have hlen := gpioSetOutput_fst_length k v insts
      by_cases hkh : k = h
      · subst hkh
        have hlt : k < insts.length := by
          simp [isUsed] at hu
          exact hu.1
        have hslot := gpioSetOutput_slot_self k v insts hlt
        have hu2 : isUsed (gpioSetOutput k v insts).1 k = true := by
          simp [isUsed, hlen, hlt, hslot]
          simp [isUsed] at hu
          exact hu.2
        obtain ⟨h1, h2⟩ := ih (gpioSetOutput k v insts).1 hv2.2 hu2
        refine ⟨?_, h2⟩
        rw [show runPool insts (Cmd.setOutput k v :: rest) =
              runPool (gpioSetOutput k v insts).1 rest from rfl]
        rw [h1, hslot]
        cases hlast : lastSetOutputCmd k rest with
        | none => simp [lastSetOutputCmd, hlast]
        | some w => simp [lastSetOutputCmd, hlast]
      · have hslot := gpioSetOutput_slot_ne k v h insts (fun hh => hkh (hh.symm))
        have hu2 : isUsed (gpioSetOutput k v insts).1 h = true := by
          rw [isUsed_congr insts (gpioSetOutput k v insts).1 h hlen hslot]
          exact hu
        obtain ⟨h1, h2⟩ := ih (gpioSetOutput k v insts).1 hv2.2 hu2
        refine ⟨?_, h2⟩
        rw [show runPool insts (Cmd.setOutput k v :: rest) =
              runPool (gpioSetOutput k v insts).1 rest from rfl]
        rw [h1, hslot]
        cases hlast : lastSetOutputCmd h rest with
        | none => simp [lastSetOutputCmd, hlast, hkh]
        | some w => simp [lastSetOutputCmd, hlast]
    | setState k v =>
      have hv2 : validRun insts rest = true := by
        simp [validRun] at hv
        exact hv.2
      obtain ⟨h1, h2⟩ := ih insts hv2 hu
      exact ⟨h1, h2⟩
    | getState k =>
      have hv2 : validRun insts rest = true := by
        simp [validRun] at hv
        exact hv.2
      obtain ⟨h1, h2⟩ := ih insts hv2 hu
      exact ⟨h1, h2⟩

theorem slotAt_listUpdateAt_self (n : Nat) (f : gpio_s → gpio_s) (l : Pool)
    (h : n < l.length) : slotAt (listUpdateAt n f l) n = f (slotAt l n) :=
  getD_listUpdateAt_self gpioZero n f l h

theorem slotAt_listUpdateAt_ne (n k : Nat) (f : gpio_s → gpio_s) (l : Pool)
    (h : k ≠ n) : slotAt (listUpdateAt n f l) k = slotAt l k :=
  getD_listUpdateAt_ne gpioZero n k f l h

theorem runPool_output_of_created (t : List Cmd) (insts : Pool) (h : Nat)
    (hv : validRun insts t = true) (hu0 : isUsed insts h = false)
    (hu1 : isUsed (runPool insts t) h = true) :
    (slotAt (runPool insts t) h).output = (lastSetOutputCmd h t).getD false := by
  induction t generalizing insts with
  | nil =>
    rw [show runPool insts [] = insts from rfl] at hu1
    rw [hu0] at hu1
    exact absurd hu1 (by simp)
  | cons c rest ih =>
    cases c with
    | create p b =>
      rcases hc : gpioCreate p b insts with ⟨r, insts2⟩
      have hrun : runPool insts (Cmd.create p b :: rest) = runPool insts2 rest := by
        rw [show runPool insts (Cmd.create p b :: rest) =
              runPool (gpioCreate p b insts).2 rest from rfl, hc]
      have hv2 : validRun insts2 rest = true := by
        have : validRun (gpioCreate p b insts).2 rest = true := hv
        rw [hc] at this
        exact this
      rw [hrun] at hu1 ⊢
      cases r with
      | none =>
        obtain ⟨he, _⟩ := gpioCreate_none p b insts insts2 hc
        rw [he] at hv2 hu1 ⊢
        exact ih insts hv2 hu0 hu1
      | some j =>
        obtain ⟨hlt, hfree, he⟩ := gpioCreate_some p b insts j insts2 hc
        by_cases hjh : j = h
        · subst hjh
          have hslot : slotAt insts2 j = ⟨p, b, false, true⟩ := by
            rw [he, slotAt_listUpdateAt_self j _ insts hlt]
          have hlen : insts2.length = insts.length := by
            rw [he, listUpdateAt_length]
          have hu2 : isUsed insts2 j = true := by
            simp [isUsed, hlen, hlt, hslot]
          obtain ⟨h1, _⟩ := runPool_output_of_used rest insts2 j hv2 hu2
          rw [h1, hslot]
          rfl
        · have hslot : slotAt insts2 h = slotAt insts h := by
            rw [he]
            exact slotAt_listUpdateAt_ne j h _ insts (fun hh => hjh hh.symm)
          have hlen : insts2.length = insts.length := by
            rw [he, listUpdateAt_length]
          have hu2 : isUsed insts2 h = false := by
            rw [isUsed_congr insts insts2 h hlen hslot]
            exact hu0
          exact ih insts2 hv2 hu2 hu1
    | setOutput k v =>
      have hv2 : isUsed insts k = true ∧
          validRun (gpioSetOutput k v insts).1 rest = true := by
        simpa [validRun] using hv
      have hkh : k ≠ h := by
        intro hh
        rw [hh] at hv2
        rw [hv2.1] at hu0
        exact absurd hu0 (by simp)
      have hslot := gpioSetOutput_slot_ne k v h insts (fun hh => hkh hh.symm)
      have hlen := gpioSetOutput_fst_length k v insts
      have hu2 : isUsed (gpioSetOutput k v insts).1 h = false := by
        rw [isUsed_congr insts (gpioSetOutput k v insts).1 h hlen hslot]
        exact hu0
      have hrun : runPool insts (Cmd.setOutput k v :: rest) =
          runPool (gpioSetOutput k v insts).1 rest := rfl
      rw [hrun] at hu1 ⊢
      have := ih (gpioSetOutput k v insts).1 hv2.2 hu2 hu1
      rw [this]
      cases hlast : lastSetOutputCmd h rest with
      | none => simp [lastSetOutputCmd, hlast, hkh]
      | some w => simp [lastSetOutputCmd, hlast]
    | setState k v =>
      have hv2 : validRun insts rest = true := by
        simp [validRun] at hv
        exact hv.2
      exact ih insts hv2 hu0 hu1
    | getState k =>
      have hv2 : validRun insts rest = true := by
        simp [validRun] at hv
        exact hv.2
      exact ih insts hv2 hu0 hu1

theorem initPool_isUsed (n h : Nat) : isUsed (initPool n) h = false := by
  by_cases hlt : h < n
  · simp [isUsed, slotAt, initPool, getD_replicate_lt gpioZero gpioZero n h hlt, gpioZero]
  · simp [isUsed, initPool]
    omega

theorem runPool_output_from_init (n : Nat) (t : List Cmd) (h : Nat)
    (hv : validRun (initPool n) t = true)
    (hu : isUsed (runPool (initPool n) t) h = true) :
    (slotAt (runPool (initPool n) t) h).output = (lastSetOutputCmd h t).getD false :=
  runPool_output_of_created t (initPool n) h hv (initPool_isUsed n h) hu

/- ================= frame lemmas along a call sequence ================= -/

theorem runPool_preserves_used_portbit (t : List Cmd) (insts : Pool) (h : Nat)
    (hu : isUsed insts h = true) :
    (slotAt (runPool insts t) h).port = (slotAt insts h).port ∧
      (slotAt (runPool insts t) h).bit = (slotAt insts h).bit ∧
      isUsed (runPool insts t) h = true := by
  induction t generalizing insts with
  | nil => exact ⟨rfl, rfl, hu⟩
  | cons c rest ih =>
    cases c with
    | create p b =>
      obtain ⟨hslot, hu2⟩ := gpioCreate_preserves_used p b insts h hu
      obtain ⟨h1, h2, h3⟩ := ih (gpioCreate p b insts).2 hu2
      rw [show runPool insts (Cmd.create p b :: rest) =
            runPool (gpioCreate p b insts).2 rest from rfl]
      rw [h1, h2, hslot]
      exact ⟨rfl, rfl, h3⟩
    | setOutput k v =>
      have hlen := gpioSetOutput_fst_length k v insts
      have hfields : (slotAt (gpioSetOutput k v insts).1 h).port =
            (slotAt insts h).port ∧
          (slotAt (gpioSetOutput k v insts).1 h).bit = (slotAt insts h).bit ∧
          (slotAt (gpioSetOutput k v insts).1 h).used = (slotAt insts h).used := by
        by_cases hkh : k = h
        · subst hkh
          have hlt : k < insts.length := by
            simp [isUsed] at hu
            exact hu.1
          rw [gpioSetOutput_slot_self k v insts hlt]
          exact ⟨rfl, rfl, rfl⟩
        · rw [gpioSetOutput_slot_ne k v h insts (fun hh => hkh hh.symm)]
          exact ⟨rfl, rfl, rfl⟩
      have hu2 : isUsed (gpioSetOutput k v insts).1 h = true := by
        simp [isUsed, hlen, hfields.2.2]
        simp [isUsed] at hu
        exact hu
      obtain ⟨h1, h2, h3⟩ := ih (gpioSetOutput k v insts).1 hu2
      rw [show runPool insts (Cmd.setOutput k v :: rest) =
            runPool (gpioSetOutput k v insts).1 rest from rfl]
      rw [h1, h2, hfields.1, hfields.2.1]
      exact ⟨rfl, rfl, h3⟩
    | setState k v => exact ih insts hu
    | getState k => exact ih insts hu

theorem runPool_free_slots_zero (t : List Cmd) (insts : Pool)
    (hv : validRun insts t = true)
    (h0 : ∀ k, k < insts.length → (slotAt insts k).used = false →
      slotAt insts k = gpioZero) :
    ∀ k, k < (runPool insts t).length →
      (slotAt (runPool insts t) k).used = false →
      slotAt (runPool insts t) k = gpioZero := by
  induction t generalizing insts with
  | nil => exact h0
  | cons c rest ih =>
    cases c with
    | create p b =>
      rcases hc : gpioCreate p b insts with ⟨r, insts2⟩
      have hv2 : validRun insts2 rest = true := by
        have : validRun (gpioCreate p b insts).2 rest = true := hv
        rw [hc] at this
        exact this
      rw [show runPool insts (Cmd.create p b :: rest) =
            runPool (gpioCreate p b insts).2 rest from rfl, hc]
      cases r with
      | none =>
        obtain ⟨he, _⟩ := gpioCreate_none p b insts insts2 hc
        rw [he]
        rw [he] at hv2
        exact ih insts hv2 h0
      | some j =>
        obtain ⟨hlt, hfree, he⟩ := gpioCreate_some p b insts j insts2 hc
        refine ih insts2 hv2 ?_
        intro k hk hkfree
        by_cases hkj : k = j
        · subst hkj
          rw [he, slotAt_listUpdateAt_self k _ insts hlt] at hkfree
          simp at hkfree
        · rw [he, slotAt_listUpdateAt_ne j k _ insts hkj] at hkfree ⊢
          have hk2 : k < insts.length := by
            rw [he, listUpdateAt_length] at hk
            exact hk
          exact h0 k hk2 hkfree
    | setOutput k2 v =>
      have hv2 : isUsed insts k2 = true ∧
          validRun (gpioSetOutput k2 v insts).1 rest = true := by
        simpa [validRun] using hv
      rw [show runPool insts (Cmd.setOutput k2 v :: rest) =
            runPool (gpioSetOutput k2 v insts).1 rest from rfl]
      refine ih (gpioSetOutput k2 v insts).1 hv2.2 ?_
      intro k hk hkfree
      by_cases hkk : k = k2
      · subst hkk
        have hlt : k < insts.length := by
          have := hv2.1
          simp [isUsed] at this
          exact this.1
        rw [gpioSetOutput_slot_self k v insts hlt] at hkfree
        have := hv2.1
        simp [isUsed] at this
        simp [this.2] at hkfree
      · rw [gpioSetOutput_slot_ne k2 v k insts hkk] at hkfree ⊢
        have hk2 : k < insts.length := by
          rw [gpioSetOutput_fst_length] at hk
          exact hk
        exact h0 k hk2 hkfree
    | setState k2 v =>
      have hv2 : validRun insts rest = true := by
        simp [validRun] at hv
        exact hv.2
      exact ih insts hv2 h0
    | getState k2 =>
      have hv2 : validRun insts rest = true := by
        simp [validRun] at hv
        exact hv.2
      exact ih insts hv2 h0

theorem initPool_free_slots_zero (n : Nat) :
    ∀ k, k < (initPool n).length → (slotAt (initPool n) k).used = false →
      slotAt (initPool n) k = gpioZero := by
  intro k hk _
  have hkn : k < n := by simpa [initPool] using hk
  simp [slotAt, initPool, getD_replicate_lt gpioZero gpioZero n k hkn]

/- ===================== dynamic-build basic lemmas ===================== -/

theorem listUpdateAt_append_singleton {α : Type} (f : α → α) (l : List α)
    (x : α) : listUpdateAt l.length f (l ++ [x]) = l ++ [f x] := by
  induction l with
  | nil => rfl
  | cons a rest ih => simpa [listUpdateAt] using ih

theorem getD_append_singleton {α : Type} (d : α) (l : List α) (x : α) :
    (l ++ [x]).getD l.length d = x := by
  induction l with
  | nil => rfl
  | cons a rest ih => simpa only [List.cons_append, List.getD_cons_succ] using ih

theorem gpioCreateDyn_true (junk : gpio_dyn_s) (p b : Nat) (heap : Heap) :
    gpioCreateDyn true junk p b heap =
      (some heap.length, heap ++ [⟨p, b, false⟩]) := by
  unfold gpioCreateDyn mallocGpio
  simp [listUpdateAt_append_singleton]

theorem gpioCreateDyn_some (ok : Bool) (junk : gpio_dyn_s) (p b : Nat)
    (heap : Heap) (h : Nat) (heap2 : Heap)
    (hc : gpioCreateDyn ok junk p b heap = (some h, heap2)) :
    ok = true ∧ h = heap.length ∧ heap2 = heap ++ [⟨p, b, false⟩] ∧
      slotAtDyn heap2 h = ⟨p, b, false⟩ := by
  cases ok with
  | false => simp [gpioCreateDyn, mallocGpio] at hc
  | true =>
    rw [gpioCreateDyn_true] at hc
    simp at hc
    obtain ⟨hh, hheap⟩ := hc
    refine ⟨rfl, hh.symm, hheap.symm, ?_⟩
    rw [← hheap, ← hh]
    exact getD_append_singleton ⟨0, 0, false⟩ heap _

theorem gpioSetStateDyn_input (h : Nat) (v : Bool) (heap : Heap)
    (hout : (slotAtDyn heap h).output = false) :
    gpioSetStateDyn h v heap = (heap, []) := by
  simp [gpioSetStateDyn, hout]

/- ================= creates make no HAL invocations ================= -/

theorem execCmds_creates_events (hal_input : Nat → Nat → Bool) (s : SysState)
    (ps : List (Nat × Nat)) :
    (execCmds hal_input s (createsOf ps)).events = s.events := by
  induction ps generalizing s with
  | nil => rfl
  | cons pb rest ih =>
    rw [show createsOf (pb :: rest) =
          Cmd.create pb.1 pb.2 :: createsOf rest from rfl]
    rw [execCmds]
    rw [ih (step hal_input s (Cmd.create pb.1 pb.2))]
    rfl

theorem execDynCmds_creates_events (hal_input : Nat → Nat → Bool)
    (s : DynState) (qs : List (Bool × gpio_dyn_s × Nat × Nat)) :
    (execDynCmds hal_input s (dynCreatesOf qs)).events = s.events := by
  induction qs generalizing s with
  | nil => rfl
  | cons q rest ih =>
    rw [show dynCreatesOf (q :: rest) =
          DynCmd.create q.1 q.2.1 q.2.2.1 q.2.2.2 :: dynCreatesOf rest from rfl]
    rw [execDynCmds]
    rw [ih (dynStep hal_input s (DynCmd.create q.1 q.2.1 q.2.2.1 q.2.2.2))]
    rfl

/- ============================ the claims ============================ -/

/-- Claim C1: direction gating.  For every live handle h and boolean v,
gpioSetState h v issues the HAL drive-output call
hal_gpio_set_output(port(h), bit(h), v) if and only if the most recent
setOutput call on h in the run supplied true (no setOutput at all means no
call, since the direction starts as input); when the cached direction is
input the call leaves the pool unchanged, emits nothing and raises no
error. -/
theorem C1_direction_gating (n : Nat) (t : List Cmd) (h : Nat) (v : Bool)
    (hv : validRun (initPool n) t = true)
    (hu : isUsed (runPool (initPool n) t) h = true) :
    gpioSetState h v (runPool (initPool n) t) =
      (runPool (initPool n) t,
       if (lastSetOutputCmd h t).getD false then
         [HalEvent.hal_gpio_set_output (slotAt (runPool (initPool n) t) h).port
            (slotAt (runPool (initPool n) t) h).bit v]
       else []) := by
  have hout := runPool_output_from_init n t h hv hu
  unfold gpioSetState
  rw [hout]
  cases hgd : (lastSetOutputCmd h t).getD false <;> simp [hgd]

/-- Witness for C1 at a concrete run: create pin (1,0) in slot 0, configure
it as output, then write true; the drive-output call is issued. -/
theorem C1_direction_gating_witness :
    validRun (initPool 2) [Cmd.create 1 0, Cmd.setOutput 0 true] = true ∧
      gpioSetState 0 true
          (runPool (initPool 2) [Cmd.create 1 0, Cmd.setOutput 0 true]) =
        (runPool (initPool 2) [Cmd.create 1 0, Cmd.setOutput 0 true],
         if (lastSetOutputCmd 0 [Cmd.create 1 0, Cmd.setOutput 0 true]).getD false then
           [HalEvent.hal_gpio_set_output
              (slotAt (runPool (initPool 2) [Cmd.create 1 0, Cmd.setOutput 0 true]) 0).port
              (slotAt (runPool (initPool 2) [Cmd.create 1 0, Cmd.setOutput 0 true]) 0).bit
              true]
         else []) :=
  ⟨by decide,
   C1_direction_gating 2 [Cmd.create 1 0, Cmd.setOutput 0 true] 0 true
     (by decide) (by decide)⟩

/-- Claim C2: pool-mode exhaustion bound.  The compile-time default capacity
is 10; with capacity n, of any run of consecutive creates the i-th call
(0-based) returns the non-empty handle of slot i while i < n and the
distinguished empty handle (none) from the (n+1)-th call on, with no way to
reset. -/
theorem C2_pool_exhaustion_bound :
    GPIO_MAX_INSTANCES = 10 ∧
      ∀ (hal_input : Nat → Nat → Bool) (n : Nat) (ps : List (Nat × Nat))
        (i : Nat), i < ps.length →
        (execCmds hal_input (initState n) (createsOf ps)).createResults.getD i none =
          if i < n then some i else none := by
  refine ⟨rfl, ?_⟩
  intro hal_input n ps i hi
  have hchar := execCmds_creates_results hal_input ps (initState n) 0
    (by simpa [initState] using prefUsed_initPool n)
  have h2 := expectedResults_getD ps.length 0 n i hi
  simp only [Nat.zero_add] at h2
  rw [hchar, show (initState n).createResults = [] from rfl, List.nil_append,
      show (initState n).insts.length = n from by simp [initState, initPool]]
  exact h2

/-- Witness for C2 at capacity 10 with 11 create calls: the 11th returns the
empty handle. -/
theorem C2_pool_exhaustion_bound_witness :
    (execCmds (fun _ _ => false) (initState 10)
        (createsOf (List.replicate 11 (0, 0)))).createResults.getD 10 none =
      if 10 < 10 then some 10 else none :=
  C2_pool_exhaustion_bound.2 (fun _ _ => false) 10 (List.replicate 11 (0, 0))
    10 (by decide)

/-- Claim C3: pool-mode allocation order.  Successive create calls claim
slots in strictly increasing index order (lowest-index-free policy), so two
successful creates return distinct handles; with capacity 3, three
consecutive creates return slots 0, 1, 2 in that order. -/
theorem C3_allocation_order :
    (∀ (hal_input : Nat → Nat → Bool) (n : Nat) (ps : List (Nat × Nat))
       (i j a b : Nat), i < j → j < ps.length →
       (execCmds hal_input (initState n) (createsOf ps)).createResults.getD i none = some a →
       (execCmds hal_input (initState n) (createsOf ps)).createResults.getD j none = some b →
       a < b ∧ a ≠ b) ∧
      (execCmds (fun _ _ => false) (initState 3)
          (createsOf [(0, 0), (0, 1), (0, 2)])).createResults =
        [some 0, some 1, some 2] := by
  constructor
  · intro hal_input n ps i j a b hij hj ha hb
    have hchar := execCmds_creates_results hal_input ps (initState n) 0
      (by simpa [initState] using prefUsed_initPool n)
    have hi : i < ps.length := lt_trans hij hj
    have h2i := expectedResults_getD ps.length 0 n i hi
    have h2j := expectedResults_getD ps.length 0 n j hj
    simp only [Nat.zero_add] at h2i h2j
    rw [hchar, show (initState n).createResults = [] from rfl, List.nil_append,
        show (initState n).insts.length = n from by simp [initState, initPool],
        h2i] at ha
    rw [hchar, show (initState n).createResults = [] from rfl, List.nil_append,
        show (initState n).insts.length = n from by simp [initState, initPool],
        h2j] at hb
    by_cases hin : i < n
    · rw [if_pos hin] at ha
      by_cases hjn : j < n
      · rw [if_pos hjn] at hb
        have hai : i = a := by simpa using ha
        have hbj : j = b := by simpa using hb
        omega
      · rw [if_neg hjn] at hb
        exact absurd hb (by simp)
    · rw [if_neg hin] at ha
      exact absurd ha (by simp)
  · decide

/-- Witness for C3 at a concrete run of two creates in a pool of capacity 2:
slot 0 then slot 1, strictly increasing and distinct. -/
theorem C3_allocation_order_witness :
    (execCmds (fun _ _ => false) (initState 2)
        (createsOf [(5, 6), (7, 8)])).createResults.getD 0 none = some 0 ∧
      (execCmds (fun _ _ => false) (initState 2)
          (createsOf [(5, 6), (7, 8)])).createResults.getD 1 none = some 1 ∧
      (0 < 1 ∧ 0 ≠ 1) :=
  ⟨by decide, by decide,
   C3_allocation_order.1 (fun _ _ => false) 2 [(5, 6), (7, 8)] 0 1 0 1
     (by decide) (by decide) (by decide) (by decide)⟩

/-- Claim C4: initial direction is input.  In both the pool and the dynamic
build, every non-empty handle returned by gpioCreate has its cached
direction equal to false (input), and consequently the first gpioSetState on
a freshly created handle leaves the state unchanged and invokes no HAL
drive-output primitive. -/
theorem C4_initial_direction_input :
    (∀ (p b : Nat) (insts : Pool) (h : Nat) (insts2 : Pool) (v : Bool),
       gpioCreate p b insts = (some h, insts2) →
       (slotAt insts2 h).output = false ∧ gpioSetState h v insts2 = (insts2, [])) ∧
      (∀ (ok : Bool) (junk : gpio_dyn_s) (p b : Nat) (heap : Heap) (h : Nat)
         (heap2 : Heap) (v : Bool),
         gpioCreateDyn ok junk p b heap = (some h, heap2) →
         (slotAtDyn heap2 h).output = false ∧
           gpioSetStateDyn h v heap2 = (heap2, [])) := by
  constructor
  · intro p b insts h insts2 v hc
    obtain ⟨hlt, _, he⟩ := gpioCreate_some p b insts h insts2 hc
    have hslot : slotAt insts2 h = ⟨p, b, false, true⟩ := by
      rw [he, slotAt_listUpdateAt_self h _ insts hlt]
    have hout : (slotAt insts2 h).output = false := by rw [hslot]
    refine ⟨hout, ?_⟩
    simp [gpioSetState, hout]
  · intro ok junk p b heap h heap2 v hc
    obtain ⟨_, _, _, hslot⟩ := gpioCreateDyn_some ok junk p b heap h heap2 hc
    have hout : (slotAtDyn heap2 h).output = false := by rw [hslot]
    exact ⟨hout, gpioSetStateDyn_input h v heap2 hout⟩

/-- Witness for C4: creating pin (2,5) in a one-slot pool yields slot 0 with
direction input, and a first write is a no-op. -/
theorem C4_initial_direction_input_witness :
    (slotAt [⟨2, 5, false, true⟩] 0).output = false ∧
      gpioSetState 0 true [⟨2, 5, false, true⟩] = ([⟨2, 5, false, true⟩], []) :=
  C4_initial_direction_input.1 2 5 (initPool 1) 0 [⟨2, 5, false, true⟩] true
    (by decide)

/-- Claim C5: setOutput forwarding fidelity.  For every call
gpioSetOutput h v, the handle's cached direction is updated to v and the HAL
receives exactly the one call hal_gpio_set_direction(port(h), bit(h), v),
with port and bit left unchanged; both steps are unconditional, in
particular they also happen when v equals the current cached direction. -/
theorem C5_setOutput_forwarding (insts : Pool) (h : Nat) (v : Bool)
    (hlt : h < insts.length) :
    (gpioSetOutput h v insts).2 =
        [HalEvent.hal_gpio_set_direction (slotAt insts h).port
           (slotAt insts h).bit v] ∧
      (slotAt (gpioSetOutput h v insts).1 h).output = v ∧
      (slotAt (gpioSetOutput h v insts).1 h).port = (slotAt insts h).port ∧
      (slotAt (gpioSetOutput h v insts).1 h).bit = (slotAt insts h).bit := by
  have hslot := gpioSetOutput_slot_self h v insts hlt
  refine ⟨?_, ?_, ?_, ?_⟩
  · have hev : (gpioSetOutput h v insts).2 =
        [HalEvent.hal_gpio_set_direction
           (slotAt (gpioSetOutput h v insts).1 h).port
           (slotAt (gpioSetOutput h v insts).1 h).bit v] := rfl
    rw [hev, hslot]
  · rw [hslot]
  · rw [hslot]
  · rw [hslot]

/-- Witness for C5 on a one-slot pool: configuring slot 0 as output emits
exactly the matching hal_gpio_set_direction call and caches the direction. -/
theorem C5_setOutput_forwarding_witness :
    (gpioSetOutput 0 true [gpioZero]).2 =
        [HalEvent.hal_gpio_set_direction (slotAt [gpioZero] 0).port
           (slotAt [gpioZero] 0).bit true] ∧
      (slotAt (gpioSetOutput 0 true [gpioZero]).1 0).output = true ∧
      (slotAt (gpioSetOutput 0 true [gpioZero]).1 0).port =
        (slotAt [gpioZero] 0).port ∧
      (slotAt (gpioSetOutput 0 true [gpioZero]).1 0).bit =
        (slotAt [gpioZero] 0).bit :=
  C5_setOutput_forwarding [gpioZero] 0 true (by decide)

/-- Claim C6: getState forwarding.  For every handle, gpioGetState invokes
hal_gpio_get_input(port(h), bit(h)) exactly once, returns its result
verbatim and leaves the pool unchanged, regardless of the cached direction
(the direction field is not consulted). -/
theorem C6_getState_forwarding (insts : Pool) (h : Nat)
    (hal_input : Nat → Nat → Bool) :
    gpioGetState h hal_input insts =
      (hal_input (slotAt insts h).port (slotAt insts h).bit, insts,
       [HalEvent.hal_gpio_get_input (slotAt insts h).port
          (slotAt insts h).bit]) := rfl

/-- Claim C7 (amended): allocator contract.  In the pool build a successful
allocation from any reachable pool yields a slot whose fields are all zero
except the reserved flag, which is set; an exhausted pool and a refused
dynamic allocation both return the failure signal.  In the dynamic build the
malloc'd cell is uninitialized until gpioCreate assigns port, bit and the
input direction, after which all three fields are set (the all-fields-zero
part of the original claim holds only in the pool build). -/
theorem C7_allocator_contract :
    (∀ (n : Nat) (t : List Cmd), validRun (initPool n) t = true →
       ∀ (j : Nat) (insts2 : Pool),
         allocateInstance (runPool (initPool n) t) = (some j, insts2) →
         slotAt insts2 j = ⟨0, 0, false, true⟩) ∧
      (∀ insts : Pool,
         (∀ k, k < insts.length → (slotAt insts k).used = true) →
         (allocateInstance insts).1 = none) ∧
      (∀ (junk : gpio_dyn_s) (heap : Heap),
         mallocGpio false junk heap = (none, heap)) ∧
      (∀ (junk : gpio_dyn_s) (p b : Nat) (heap : Heap) (h : Nat)
         (heap2 : Heap), gpioCreateDyn true junk p b heap = (some h, heap2) →
         slotAtDyn heap2 h = ⟨p, b, false⟩) := by
  refine ⟨?_, ?_, ?_, ?_⟩
  · intro n t hv j insts2 halloc
    have hfz := runPool_free_slots_zero t (initPool n) hv
      (initPool_free_slots_zero n)
    have h1 : (allocateInstance (runPool (initPool n) t)).1 = some j := by
      rw [halloc]
    obtain ⟨hlt, hfree, hsnd⟩ := allocateInstance_some _ j h1
    have hz : slotAt (runPool (initPool n) t) j = gpioZero := hfz j hlt hfree
    rw [halloc] at hsnd
    have h2 : insts2 = listUpdateAt j (fun g => { g with used := true })
        (runPool (initPool n) t) := hsnd
    rw [h2, slotAt_listUpdateAt_self j _ _ hlt, hz]
    rfl
  · intro insts hall
    rw [allocateInstance_exhausted insts hall]
  · intro junk heap
    simp [mallocGpio]
  · intro junk p b heap h heap2 hc
    exact (gpioCreateDyn_some true junk p b heap h heap2 hc).2.2.2

/-- Witness for C7: allocating from a fresh one-slot pool yields the zero
slot with the reserved flag set. -/
theorem C7_allocator_contract_witness :
    slotAt [⟨0, 0, false, true⟩] 0 = ⟨0, 0, false, true⟩ :=
  C7_allocator_contract.1 1 [] (by decide) 0 [⟨0, 0, false, true⟩] (by decide)

/-- Counterexample to C7 as stated: in the dynamic build, allocation is
malloc, whose cell content is indeterminate rather than zero-initialized;
with fresh-cell content (7,0,false) the allocation succeeds yet the
allocated cell is not all-zero. -/
theorem C7_allocator_contract_cex :
    (mallocGpio true ⟨7, 0, false⟩ []).1 = some 0 ∧
      ¬ slotAtDyn (mallocGpio true ⟨7, 0, false⟩ []).2 0 = ⟨0, 0, false⟩ := by
  decide

/-- Claim C8: immutability of (port, bit).  gpioCreate assigns port and bit
of the claimed slot; thereafter any sequence of façade calls leaves the port
and bit of a live slot unchanged; gpioSetState and gpioGetState leave the
whole pool unchanged, so repeated reads differ only in what the HAL oracle
reports. -/
theorem C8_portbit_immutable :
    (∀ (p b : Nat) (insts : Pool) (h : Nat) (insts2 : Pool),
       gpioCreate p b insts = (some h, insts2) →
       (slotAt insts2 h).port = p ∧ (slotAt insts2 h).bit = b) ∧
      (∀ (t : List Cmd) (insts : Pool) (h : Nat), isUsed insts h = true →
         (slotAt (runPool insts t) h).port = (slotAt insts h).port ∧
           (slotAt (runPool insts t) h).bit = (slotAt insts h).bit) ∧
      (∀ (h : Nat) (v : Bool) (insts : Pool),
         (gpioSetState h v insts).1 = insts) ∧
      (∀ (h : Nat) (hal_input : Nat → Nat → Bool) (insts : Pool),
         (gpioGetState h hal_input insts).2.1 = insts) := by
  refine ⟨?_, ?_, ?_, ?_⟩
  · intro p b insts h insts2 hc
    obtain ⟨hlt, _, he⟩ := gpioCreate_some p b insts h insts2 hc
    rw [he, slotAt_listUpdateAt_self h _ insts hlt]
    exact ⟨rfl, rfl⟩
  · intro t insts h hu
    obtain ⟨h1, h2, _⟩ := runPool_preserves_used_portbit t insts h hu
    exact ⟨h1, h2⟩
  · intro h v insts
    exact gpioSetState_pool h v insts
  · intro h hal_input insts
    rfl

/-- Witness for C8: after a direction change and a write, the port and bit
of the live slot 0 are unchanged. -/
theorem C8_portbit_immutable_witness :
    (slotAt (runPool [⟨3, 7, false, true⟩]
        [Cmd.setOutput 0 true, Cmd.setState 0 true]) 0).port =
      (slotAt [⟨3, 7, false, true⟩] 0).port ∧
      (slotAt (runPool [⟨3, 7, false, true⟩]
          [Cmd.setOutput 0 true, Cmd.setState 0 true]) 0).bit =
        (slotAt [⟨3, 7, false, true⟩] 0).bit :=
  C8_portbit_immutable.2.1 [Cmd.setOutput 0 true, Cmd.setState 0 true]
    [⟨3, 7, false, true⟩] 0 (by decide)

/-- Claim C9: totality of the non-create operations.  Applied to any
well-formed (non-empty) handle and any boolean arguments, gpioSetOutput,
gpioSetState and gpioGetState always complete without failure (there is no
error channel); the empty handle (NULL, `none`) lies outside this
precondition and is not accepted by any of them. -/
theorem C9_operations_total :
    (∀ (insts : Pool) (h : Nat) (v : Bool), h < insts.length →
       (gpioSetOutputChecked (some h) v insts).isSome = true ∧
         (gpioSetStateChecked (some h) v insts).isSome = true) ∧
      (∀ (insts : Pool) (h : Nat) (hal_input : Nat → Nat → Bool),
         h < insts.length →
         (gpioGetStateChecked (some h) hal_input insts).isSome = true) ∧
      (∀ (insts : Pool) (v : Bool) (hal_input : Nat → Nat → Bool),
         gpioSetOutputChecked none v insts = none ∧
           gpioSetStateChecked none v insts = none ∧
           gpioGetStateChecked none hal_input insts = none) := by
  refine ⟨?_, ?_, ?_⟩
  · intro insts h v hlt
    constructor <;> simp [gpioSetOutputChecked, gpioSetStateChecked, hlt]
  · intro insts h hal_input hlt
    simp [gpioGetStateChecked, hlt]
  · intro insts v hal_input
    exact ⟨rfl, rfl, rfl⟩

/-- Witness for C9 on a one-slot pool: both mutating operations are defined
on the well-formed handle 0. -/
theorem C9_operations_total_witness :
    (gpioSetOutputChecked (some 0) true [gpioZero]).isSome = true ∧
      (gpioSetStateChecked (some 0) true [gpioZero]).isSome = true :=
  C9_operations_total.1 [gpioZero] 0 true (by decide)

/-- Claim C10: creation is electrically silent.  In both builds, a create
call, whether it succeeds or returns the empty handle, records no HAL
invocation, and a run consisting only of create calls records no HAL
invocation at all; the first HAL call on a pin can only come from a later
setOutput, setState or getState. -/
theorem C10_create_electrically_silent :
    (∀ (hal_input : Nat → Nat → Bool) (s : SysState) (p b : Nat),
       (step hal_input s (Cmd.create p b)).events = s.events) ∧
      (∀ (hal_input : Nat → Nat → Bool) (n : Nat) (ps : List (Nat × Nat)),
         (execCmds hal_input (initState n) (createsOf ps)).events = []) ∧
      (∀ (hal_input : Nat → Nat → Bool) (s : DynState) (ok : Bool)
         (junk : gpio_dyn_s) (p b : Nat),
         (dynStep hal_input s (DynCmd.create ok junk p b)).events = s.events) ∧
      (∀ (hal_input : Nat → Nat → Bool)
         (qs : List (Bool × gpio_dyn_s × Nat × Nat)),
         (execDynCmds hal_input initDynState (dynCreatesOf qs)).events = []) := by
  refine ⟨fun _ _ _ _ => rfl, ?_, fun _ _ _ _ _ _ => rfl, ?_⟩
  · intro hal_input n ps
    rw [execCmds_creates_events]
    rfl
  · intro hal_input qs
    rw [execDynCmds_creates_events]
    rfl
